import Mathlib

set_option autoImplicit false

/-
Verification of the biowiki store against its specification.

The Rust sources are shallowly embedded: paths become lists of OS-string
components, the filesystem fragment the store touches becomes an explicit
`Fs` value threaded through every operation, and the opaque JSON framing
of the spec (§1) becomes an explicit injective codec.  Functions keep the
source names (`Page::open` becomes `Page.openAt` because `open` is a Lean
keyword, likewise `Attachment.openAt`; `Route::from` becomes
`Route.ofRequest` because `from` is a Lean keyword).
-/

namespace BioWiki

/-- Model of one character of an `OsString`: either a decoded Unicode
character or a byte that is not part of any valid UTF-8 sequence. -/
inductive OsChar where
  | ch (c : Char)
  | bad (b : Nat)
deriving DecidableEq, Repr

/-- Model of an `OsString` as a list of `OsChar`. -/
abbrev OsStr := List OsChar

/-- Embed a Lean string as an OS string. -/
def osOf (s : String) : OsStr := s.data.map OsChar.ch

/-- Model of `OsStr::to_str`: succeeds exactly when every character is a
valid Unicode character. -/
def OsStr.toStr : OsStr → Option String
  | [] => some ""
  | OsChar.ch c :: rest =>
    match OsStr.toStr rest with
    | some s => some ⟨c :: s.data⟩
    | none => none
  | OsChar.bad _ :: _ => none

theorem toStr_osOf (s : String) : OsStr.toStr (osOf s) = some s := by
  have h : ∀ l : List Char, OsStr.toStr (l.map OsChar.ch) = some ⟨l⟩ := by
    intro l
    induction l with
    | nil => rfl
    | cons c cs ih => simp [osOf, OsStr.toStr, ih]
  simpa [osOf] using h s.data

theorem osOf_injective : Function.Injective osOf := by
  intro s t h
  have hch : Function.Injective OsChar.ch := fun a b hab => by cases hab; rfl
  have hd : s.data = t.data := List.map_injective_iff.mpr hch h
  cases s; cases t
  exact congrArg String.mk hd

/-- Model of a filesystem path as a list of components. -/
abbrev FsPath := List OsStr

/-- Model of `Path::file_name`: the last component, except that a path ending
in `..` (or an empty path) has no file name. -/
def FsPath.fileName (p : FsPath) : Option OsStr :=
  match p.getLast? with
  | none => none
  | some c => if c = osOf ".." then none else some c

/-- Component-wise UTF-8 validity of a whole path; models
`Path::to_str().is_some()`. -/
def FsPath.utf8Ok (p : FsPath) : Bool := p.all (fun c => (OsStr.toStr c).isSome)

/-- Model of the filesystem fragment the store touches: the set of existing
directories and a map from file paths to byte contents. -/
structure Fs where
  dirs : List FsPath
  files : List (FsPath × List Nat)
deriving Repr

def Fs.isDir (fs : Fs) (p : FsPath) : Bool := fs.dirs.contains p

def Fs.isFile (fs : Fs) (p : FsPath) : Bool := fs.files.any (fun q => q.1 = p)

/-- Model of `Path::exists`. -/
def Fs.pathExists (fs : Fs) (p : FsPath) : Bool := fs.isDir p || fs.isFile p

/-- Model of opening a file and reading its full contents. -/
def Fs.readFile (fs : Fs) (p : FsPath) : Option (List Nat) :=
  (fs.files.find? (fun q => q.1 = p)).map Prod.snd

/-- Model of an `io::Error`, reduced to the error kinds the sources inspect. -/
inductive IoErr where
  | notFound
  | alreadyExists
  | otherErr
deriving DecidableEq, Repr

/-- Model of `fs::create_dir`: fails if the path already exists or the parent
directory is missing. -/
def Fs.createDir (fs : Fs) (p : FsPath) : Except IoErr Fs :=
  if fs.pathExists p then .error .alreadyExists
  else if fs.isDir p.dropLast then .ok { fs with dirs := p :: fs.dirs }
  else .error .notFound

/-- Model of `File::create` followed by writing the whole payload: creates or
truncates the file; fails if the path is a directory or the parent directory
is missing. -/
def Fs.writeFile (fs : Fs) (p : FsPath) (bytes : List Nat) : Except IoErr Fs :=
  if fs.isDir p then .error .otherErr
  else if fs.isDir p.dropLast then
    .ok { fs with files := (p, bytes) :: fs.files.filter (fun q => q.1 ≠ p) }
  else .error .notFound

/-- Immediate-child test used to model directory enumeration. -/
def isChildOf (parent q : FsPath) : Bool := q.dropLast = parent && q ≠ parent

/-- Immediate children of a directory, files first, in storage order. -/
def Fs.children (fs : Fs) (p : FsPath) : List FsPath :=
  (fs.files.map Prod.fst ++ fs.dirs).filter (isChildOf p)

/-- Model of `fs::read_dir`. -/
def Fs.readDir (fs : Fs) (p : FsPath) : Except IoErr (List FsPath) :=
  if fs.isDir p then .ok (fs.children p) else .error .notFound

/-! Serialisation codec.  Spec §1 treats JSON encoding/decoding of the wire
payloads as an opaque serialize/deserialize capability; it is modelled as a
length-prefixed byte codec whose decoder is a partial inverse of the
encoder. -/

/-- Length-prefixed encoding of one string field. -/
def encodeStr (s : String) : List Nat := s.length :: s.data.map Char.toNat

/-- Decoder matching `encodeStr`; returns the decoded string and the rest. -/
def decodeStr : List Nat → Option (String × List Nat)
  | [] => none
  | n :: rest =>
    if n ≤ rest.length then
      some (⟨(rest.take n).map Char.ofNat⟩, rest.drop n)
    else none

theorem decodeStr_encodeStr (s : String) (r : List Nat) :
    decodeStr (encodeStr s ++ r) = some (s, r) := by
  have hlen : s.length = (s.data.map Char.toNat).length := by
    rw [List.length_map]
    rfl
  simp only [encodeStr, List.cons_append, decodeStr]
  rw [if_pos]
  · congr 1
    have htake : ((s.data.map Char.toNat ++ r).take s.length) = s.data.map Char.toNat := by
      rw [hlen, List.take_left]
    have hdrop : ((s.data.map Char.toNat ++ r).drop s.length) = r := by
      rw [hlen, List.drop_left]
    rw [htake, hdrop]
    have : (s.data.map Char.toNat).map Char.ofNat = s.data := by
      rw [List.map_map]
      have : (Char.ofNat ∘ Char.toNat) = id := by
        funext c
        simp [Char.ofNat_toNat]
      rw [this, List.map_id]
    rw [this]
  · rw [hlen, List.length_append]
    omega

/-- Data model of `PageDetail` from src/src/page.rs. -/
structure PageDetail where
  name : String
  title : String
  content : String
deriving DecidableEq, Repr

/-- Modelled opaque JSON serialisation of a `PageDetail` (spec §1): a
length-prefixed concatenation of its three fields. -/
def serializeDetail (d : PageDetail) : List Nat :=
  encodeStr d.name ++ encodeStr d.title ++ encodeStr d.content

/-- Model of `PageDetail::parse` / `serde_json::from_*` for `PageDetail`:
partial inverse of `serializeDetail`. -/
def parseDetail (b : List Nat) : Option PageDetail :=
  match decodeStr b with
  | none => none
  | some (name, b1) =>
    match decodeStr b1 with
    | none => none
    | some (title, b2) =>
      match decodeStr b2 with
      | none => none
      | some (content, b3) =>
        if b3 = [] then some ⟨name, title, content⟩ else none

theorem parseDetail_serializeDetail (d : PageDetail) :
    parseDetail (serializeDetail d) = some d := by
  simp only [serializeDetail, parseDetail, List.append_assoc, decodeStr_encodeStr]
  have h : decodeStr (encodeStr d.content) = some (d.content, []) := by
    simpa using decodeStr_encodeStr d.content []
  simp [h]

theorem serializeDetail_injective : Function.Injective serializeDetail := by
  intro d1 d2 h
  have h1 := parseDetail_serializeDetail d1
  have h2 := parseDetail_serializeDetail d2
  rw [h, h2] at h1
  exact (Option.some_injective _ h1).symm

/-- Data model of `AttachmentData` from src/src/page.rs. -/
structure AttachmentData where
  file_name : String
  encoded_data : String
deriving DecidableEq, Repr

/-- Modelled opaque JSON serialisation of an `AttachmentData` body. -/
def serializeAttData (a : AttachmentData) : List Nat :=
  encodeStr a.file_name ++ encodeStr a.encoded_data

/-- Model of `AttachmentData::parse`: partial inverse of
`serializeAttData`. -/
def parseAttData (b : List Nat) : Option AttachmentData :=
  match decodeStr b with
  | none => none
  | some (fn, b1) =>
    match decodeStr b1 with
    | none => none
    | some (ed, b2) =>
      if b2 = [] then some ⟨fn, ed⟩ else none

theorem parseAttData_serializeAttData (a : AttachmentData) :
    parseAttData (serializeAttData a) = some a := by
  simp only [serializeAttData, parseAttData, decodeStr_encodeStr]
  have h : decodeStr (encodeStr a.encoded_data) = some (a.encoded_data, []) := by
    simpa using decodeStr_encodeStr a.encoded_data []
  simp [h]

/-! Content hashing.  The spec names a 256-bit cryptographic hash of the
serialized bytes; the model idealises it as a collision-free (injective)
code on byte lists, which is exactly the property the spec relies on for
content addressing. -/

/-- Injective encoding of a byte list into a natural number. -/
def encodeList : List Nat → Nat
  | [] => 0
  | b :: rest => Nat.pair b (encodeList rest) + 1

theorem encodeList_injective : Function.Injective encodeList := by
  intro l1
  induction l1 with
  | nil =>
    intro l2 h
    cases l2 with
    | nil => rfl
    | cons b r => simp [encodeList] at h
  | cons b r ih =>
    intro l2 h
    cases l2 with
    | nil => simp [encodeList] at h
    | cons b2 r2 =>
      simp only [encodeList, Nat.add_right_cancel_iff] at h
      obtain ⟨hb, hr⟩ := Nat.pair_eq_pair.mp h
      rw [hb, ih hr]

/-- Modelled from the spec: the 256-bit content hash of §3 and §4.4,
idealised as collision-free. -/
def contentHash (bytes : List Nat) : Nat := encodeList bytes

theorem contentHash_injective : Function.Injective contentHash :=
  encodeList_injective

/-! Hexadecimal rendering of a digest, used to model the
`versions/<hex-digest>.json` naming scheme. -/

def hexDigitChar (n : Nat) : Char := "0123456789abcdef".data.getD n '0'

def hexChars (n : Nat) : List Char :=
  if h : n < 16 then [hexDigitChar n]
  else hexChars (n / 16) ++ [hexDigitChar (n % 16)]
decreasing_by exact Nat.div_lt_self (by omega) (by omega)

def unhexChar (c : Char) : Nat := "0123456789abcdef".data.findIdx (· == c)

def unhex (l : List Char) : Nat := l.foldl (fun acc c => acc * 16 + unhexChar c) 0

theorem unhexChar_hexDigitChar : ∀ n : Fin 16, unhexChar (hexDigitChar n.val) = n.val := by
  decide

theorem unhex_hexChars (n : Nat) : unhex (hexChars n) = n := by
  induction n using hexChars.induct with
  | case1 n h =>
    rw [hexChars, dif_pos h]
    simpa [unhex] using unhexChar_hexDigitChar ⟨n, h⟩
  | case2 n h ih =>
    rw [hexChars, dif_neg h]
    have hmod : unhexChar (hexDigitChar (n % 16)) = n % 16 :=
      unhexChar_hexDigitChar ⟨n % 16, Nat.mod_lt _ (by omega)⟩
    have hstep : unhex (hexChars (n / 16) ++ [hexDigitChar (n % 16)])
        = unhex (hexChars (n / 16)) * 16 + unhexChar (hexDigitChar (n % 16)) := by
      simp [unhex, List.foldl_append]
    rw [hstep, ih, hmod]
    omega

theorem hexChars_injective : Function.Injective hexChars :=
  Function.LeftInverse.injective unhex_hexChars

/-- Modelled from the spec: the `versions/<hex-digest>.json` file name for a
given digest (§3 Version). -/
def versionFileName (h : Nat) : String := ⟨hexChars h⟩ ++ ".json"

theorem versionFileName_injective : Function.Injective versionFileName := by
  intro h1 h2 he
  have hd : (hexChars h1 ++ ".json".data) = (hexChars h2 ++ ".json".data) := by
    have : (versionFileName h1).data = (versionFileName h2).data := by rw [he]
    simpa [versionFileName, String.data_append] using this
  exact hexChars_injective (List.append_inj_left' hd (by rfl))

/-! Base64.  `base64::decode` comes from the vendored base64 crate; it is
modelled as the standard-alphabet decoder over canonically padded input,
together with the matching encoder. -/

def b64Alphabet : List Char :=
  "ABCDEFGHIJKLMNOPQRSTUVWXYZabcdefghijklmnopqrstuvwxyz0123456789+/".data

def b64Enc (n : Nat) : Char := b64Alphabet.getD n 'A'

def b64Dec (c : Char) : Option Nat :=
  let i := b64Alphabet.findIdx (· == c)
  if i < 64 then some i else none

/-- Encoder for the standard base64 alphabet with `=` padding. -/
def base64Encode : List Nat → List Char
  | [] => []
  | [a] => [b64Enc (a / 4), b64Enc (a % 4 * 16), '=', '=']
  | [a, b] => [b64Enc (a / 4), b64Enc (a % 4 * 16 + b / 16), b64Enc (b % 16 * 4), '=']
  | a :: b :: c :: rest =>
    b64Enc (a / 4) :: b64Enc (a % 4 * 16 + b / 16) :: b64Enc (b % 16 * 4 + c / 64)
      :: b64Enc (c % 64) :: base64Encode rest

/-- Model of `base64::decode` (standard alphabet, canonical padding). -/
def base64Decode : List Char → Option (List Nat)
  | [] => some []
  | c1 :: c2 :: c3 :: c4 :: rest =>
    if c3 = '=' then
      if c4 = '=' ∧ rest = [] then
        match b64Dec c1, b64Dec c2 with
        | some d1, some d2 =>
          if d2 % 16 = 0 then some [d1 * 4 + d2 / 16] else none
        | _, _ => none
      else none
    else if c4 = '=' then
      if rest = [] then
        match b64Dec c1, b64Dec c2, b64Dec c3 with
        | some d1, some d2, some d3 =>
          if d3 % 4 = 0 then some [d1 * 4 + d2 / 16, d2 % 16 * 16 + d3 / 4] else none
        | _, _, _ => none
      else none
    else
      match b64Dec c1, b64Dec c2, b64Dec c3, b64Dec c4, base64Decode rest with
      | some d1, some d2, some d3, some d4, some tail =>
        some ((d1 * 4 + d2 / 16) :: (d2 % 16 * 16 + d3 / 4) :: (d3 % 4 * 64 + d4) :: tail)
      | _, _, _, _, _ => none
  | _ => none

theorem b64Dec_b64Enc : ∀ n : Fin 64, b64Dec (b64Enc n.val) = some n.val := by
  decide

theorem b64Enc_ne_pad (n : Nat) : b64Enc n ≠ '=' := by
  intro he
  rcases Nat.lt_or_ge n 64 with h | h
  · have hd := b64Dec_b64Enc ⟨n, h⟩
    simp only at hd
    rw [he] at hd
    have hnone : b64Dec '=' = none := by decide
    rw [hnone] at hd
    exact Option.noConfusion hd
  · have hA : b64Enc n = 'A' := by
      unfold b64Enc
      apply List.getD_eq_default
      have : b64Alphabet.length = 64 := by decide
      omega
    rw [hA] at he
    exact absurd he (by decide)

theorem base64_roundtrip (B : List Nat) (hB : ∀ b ∈ B, b < 256) :
    base64Decode (base64Encode B) = some B := by
  induction B using base64Encode.induct with
  | case1 => rfl
  | case2 a =>
    have ha : a < 256 := hB a (by simp)
    have h1 : b64Dec (b64Enc (a / 4)) = some (a / 4) := b64Dec_b64Enc ⟨a / 4, by omega⟩
    have h2 : b64Dec (b64Enc (a % 4 * 16)) = some (a % 4 * 16) :=
      b64Dec_b64Enc ⟨a % 4 * 16, by omega⟩
    have hz : a % 4 * 16 % 16 = 0 := by omega
    have he : a / 4 * 4 + a % 4 * 16 / 16 = a := by omega
    simp [base64Encode, base64Decode, h1, h2, hz, he]
    omega
  | case3 a b =>
    have ha : a < 256 := hB a (by simp)
    have hb : b < 256 := hB b (by simp)
    have h1 : b64Dec (b64Enc (a / 4)) = some (a / 4) := b64Dec_b64Enc ⟨a / 4, by omega⟩
    have h2 : b64Dec (b64Enc (a % 4 * 16 + b / 16)) = some (a % 4 * 16 + b / 16) :=
      b64Dec_b64Enc ⟨a % 4 * 16 + b / 16, by omega⟩
    have h3 : b64Dec (b64Enc (b % 16 * 4)) = some (b % 16 * 4) :=
      b64Dec_b64Enc ⟨b % 16 * 4, by omega⟩
    have hz : b % 16 * 4 % 4 = 0 := by omega
    have e1 : a / 4 * 4 + (a % 4 * 16 + b / 16) / 16 = a := by omega
    have e2 : (a % 4 * 16 + b / 16) % 16 * 16 + b % 16 * 4 / 4 = b := by omega
    simp [base64Encode, base64Decode, b64Enc_ne_pad, h1, h2, h3, hz, e1, e2]
    omega
  | case4 a b c rest ih =>
    have ha : a < 256 := hB a (by simp)
    have hb : b < 256 := hB b (by simp)
    have hc : c < 256 := hB c (by simp)
    have hrest : ∀ x ∈ rest, x < 256 := fun x hx => hB x (by simp [hx])
    have h1 : b64Dec (b64Enc (a / 4)) = some (a / 4) := b64Dec_b64Enc ⟨a / 4, by omega⟩
    have h2 : b64Dec (b64Enc (a % 4 * 16 + b / 16)) = some (a % 4 * 16 + b / 16) :=
      b64Dec_b64Enc ⟨a % 4 * 16 + b / 16, by omega⟩
    have h3 : b64Dec (b64Enc (b % 16 * 4 + c / 64)) = some (b % 16 * 4 + c / 64) :=
      b64Dec_b64Enc ⟨b % 16 * 4 + c / 64, by omega⟩
    have h4 : b64Dec (b64Enc (c % 64)) = some (c % 64) := b64Dec_b64Enc ⟨c % 64, by omega⟩
    have e1 : a / 4 * 4 + (a % 4 * 16 + b / 16) / 16 = a := by omega
    have e2 : (a % 4 * 16 + b / 16) % 16 * 16 + (b % 16 * 4 + c / 64) / 4 = b := by omega
    have e3 : (b % 16 * 4 + c / 64) % 4 * 64 + c % 64 = c := by omega
    simp [base64Encode, base64Decode, b64Enc_ne_pad, h1, h2, h3, h4, ih hrest, e1, e2, e3]

/-- Base64 encoding as a string, as carried in `encoded_data`. -/
def b64EncodeStr (B : List Nat) : String := ⟨base64Encode B⟩

/-- Model of `base64::decode` applied to a Rust `String`. -/
def b64DecodeStr (s : String) : Option (List Nat) := base64Decode s.data

theorem b64DecodeStr_encodeStr (B : List Nat) (hB : ∀ b ∈ B, b < 256) :
    b64DecodeStr (b64EncodeStr B) = some B := base64_roundtrip B hB

/-! Embedding of src/src/page.rs. -/

/-- Error type `AttachmentError` of src/src/page.rs (payloads dropped). -/
inductive AttachmentError where
  | NotFound
  | IoError
  | JsonError
  | Base64Error
deriving DecidableEq, Repr

/-- Embedding of `impl From<io::Error> for AttachmentError`. -/
def ioErrToAttachment : IoErr → AttachmentError
  | .notFound => .NotFound
  | _ => .IoError

/-- Error type `PageError` of src/src/page.rs (payloads dropped). -/
inductive PageError where
  | NotFound
  | NotDirectory
  | InvalidPath
  | Utf8Error
  | NameMismatch
  | IoError
  | JsonError
  | OverwriteError
deriving DecidableEq, Repr

/-- Embedding of `impl From<io::Error> for PageError`. -/
def ioErrToPage : IoErr → PageError
  | .notFound => .NotFound
  | _ => .IoError

def PAGE_FILENAME : String := "page.json"

def ATTACHMENTS_DIRECTORY : String := "attachments"

/-- Struct `Attachment` of src/src/page.rs. -/
structure Attachment where
  path : FsPath
deriving DecidableEq, Repr

/-- Embedding of `Attachment::open`. -/
def Attachment.openAt (fs : Fs) (path : FsPath) : Except AttachmentError Attachment :=
  if fs.pathExists path then .ok ⟨path⟩ else .error .NotFound

/-- Embedding of `Attachment::data`: read the whole file. -/
def Attachment.data (fs : Fs) (att : Attachment) : Except AttachmentError (List Nat) :=
  match fs.readFile att.path with
  | some b => .ok b
  | none => if fs.isDir att.path then .error .IoError else .error .NotFound

/-- Mime values the sources can produce. -/
inductive Mime where
  | imagePng
  | imageJpeg
  | octetStream
deriving DecidableEq, Repr

/-- Model of Rust `Path::extension` applied to one file-name component:
split at the last dot that is not the leading character; `..` and dotless
names have no extension. -/
def fileExt (f : OsStr) : Option OsStr :=
  if f = osOf ".." then none
  else
    match ((List.range f.length).filter
        (fun i => decide (1 ≤ i) && decide (f.getD i (OsChar.bad 0) = OsChar.ch '.'))).getLast? with
    | none => none
    | some i => some (f.drop (i + 1))

/-- Model of `Path::extension` on a whole path. -/
def FsPath.extension (p : FsPath) : Option OsStr :=
  match p.fileName with
  | none => none
  | some f => fileExt f

/-- Case-insensitive character comparison (ASCII folding).  Regex `(?i)`
performs Unicode simple case folding, which coincides with ASCII folding on
every character of the patterns `png` and `jpe?g`. -/
def ciCharEq (a b : Char) : Bool :=
  a == b
    || (65 ≤ a.toNat && a.toNat ≤ 90 && a.toNat + 32 == b.toNat)
    || (65 ≤ b.toNat && b.toNat ≤ 90 && b.toNat + 32 == a.toNat)

/-- Anchored case-insensitive match of a whole string against a pattern. -/
def ciEq : List Char → List Char → Bool
  | [], [] => true
  | a :: as, b :: bs => ciCharEq a b && ciEq as bs
  | _, _ => false

/-- Embedding of `Attachment::mime_type` from src/src/page.rs — the module
wired into the service by src/src/lib.rs.  Its table knows only `png`
(regex `^(?i)png$`). -/
def Attachment.mime_type (att : Attachment) : Mime :=
  match FsPath.extension att.path with
  | none => .octetStream
  | some e =>
    match e.toStr with
    | none => .octetStream
    | some s => if ciEq s.data "png".data then .imagePng else .octetStream

/-- Embedding of `Attachment::mime_type` from src/src/attachment.rs — a later
iteration of the same function that is present in the repository but not
declared as a module anywhere; it additionally matches `^(?i)jpe?g$`. -/
def Attachment.mime_type_alt (att : Attachment) : Mime :=
  match FsPath.extension att.path with
  | none => .octetStream
  | some e =>
    match e.toStr with
    | none => .octetStream
    | some s =>
      if ciEq s.data "png".data then .imagePng
      else if ciEq s.data "jpg".data || ciEq s.data "jpeg".data then .imageJpeg
      else .octetStream

/-- Embedding of `AttachmentData::data`: base64-decode the payload. -/
def AttachmentData.data (a : AttachmentData) : Except AttachmentError (List Nat) :=
  match b64DecodeStr a.encoded_data with
  | some d => .ok d
  | none => .error .Base64Error

/-- Model of the word-character class `\w` of the regex crate, restricted to
the alphanumeric-or-underscore core; the claims about file-name validation
only rely on `\w` excluding `.`. -/
def isWordChar (c : Char) : Bool := c.isAlphanum || c = '_'

/-- Separator split mirroring Rust's `str::split(sep)` (and Lean's
`String.splitOn` for a one-character separator); structural so that it
evaluates inside the kernel. -/
def splitOnChar (sep : Char) : List Char → List (List Char)
  | [] => [[]]
  | c :: cs =>
    let r := splitOnChar sep cs
    if c = sep then [] :: r
    else
      match r with
      | h :: t => (c :: h) :: t
      | [] => [[c]]

/-- Embedding of `AttachmentData::is_file_name_valid` from src/src/page.rs:
regex `^\w+\.\w+$` — word characters, one dot, word characters (since `\w`
excludes the dot, a match has exactly one dot). -/
def AttachmentData.is_file_name_valid (a : AttachmentData) : Bool :=
  match splitOnChar '.' a.file_name.data with
  | [s, t] => !s.isEmpty && !t.isEmpty && s.all isWordChar && t.all isWordChar
  | _ => false

/-- Struct `Page` of src/src/page.rs. -/
structure Page where
  path : FsPath
  detail : PageDetail
deriving DecidableEq, Repr

/-- Embedding of `Page::open` (named `openAt`; `open` is a Lean keyword). -/
def Page.openAt (fs : Fs) (path : FsPath) : Except PageError Page :=
  if ¬ fs.pathExists path then .error .NotFound
  else if ¬ fs.isDir path then .error .NotDirectory
  else
    match path.fileName with
    | none => .error .InvalidPath
    | some fn =>
      match fn.toStr with
      | none => .error .Utf8Error
      | some expectedName =>
        match fs.readFile (path ++ [osOf PAGE_FILENAME]) with
        | none => .error .NotFound
        | some bytes =>
          match parseDetail bytes with
          | none => .error .JsonError
          | some detail =>
            if detail.name ≠ expectedName then .error .NameMismatch
            else .ok ⟨path, detail⟩

/-- Embedding of `Page::write` exactly as it stands in src/src/page.rs: it
only rewrites the current-detail file — this iteration of page.rs carries no
version store. -/
def Page.write (fs : Fs) (page : Page) : Except PageError Unit × Fs :=
  match fs.writeFile (page.path ++ [osOf PAGE_FILENAME]) (serializeDetail page.detail) with
  | .error e => (.error (ioErrToPage e), fs)
  | .ok fs1 => (.ok (), fs1)

/-- Embedding of `Page::create`. -/
def Page.create (fs : Fs) (page : Page) : Except PageError Unit × Fs :=
  if fs.pathExists page.path then (.error .OverwriteError, fs)
  else
    match fs.createDir page.path with
    | .error e => (.error (ioErrToPage e), fs)
    | .ok fs1 => Page.write fs1 page

/-- Embedding of `Page::update`. -/
def Page.update (fs : Fs) (page : Page) : Except PageError Unit × Fs :=
  if ¬ fs.pathExists page.path then (.error .NotFound, fs)
  else Page.write fs page

/-- Embedding of `Page::get_attachment`. -/
def Page.get_attachment (fs : Fs) (page : Page) (file_name : String) :
    Except AttachmentError Attachment :=
  Attachment.openAt fs (page.path ++ [osOf ATTACHMENTS_DIRECTORY, osOf file_name])

/-- Embedding of `Page::save_attachment`: decode the base64 payload first,
then create the attachments directory if absent, then write the file. -/
def Page.save_attachment (fs : Fs) (page : Page) (att : AttachmentData) :
    Except AttachmentError Unit × Fs :=
  match att.data with
  | .error e => (.error e, fs)
  | .ok bytes =>
    let attDir := page.path ++ [osOf ATTACHMENTS_DIRECTORY]
    match (if ¬ fs.pathExists attDir then fs.createDir attDir else .ok fs) with
    | .error e => (.error (ioErrToAttachment e), fs)
    | .ok fs1 =>
      match fs1.writeFile (attDir ++ [osOf att.file_name]) bytes with
      | .error e => (.error (ioErrToAttachment e), fs1)
      | .ok fs2 => (.ok (), fs2)

/-! Embedding of src/src/web.rs. -/

/-- Error type `WebError` of src/src/web.rs (payloads dropped). -/
inductive WebError where
  | NotFound
  | IoError
  | OverwriteError
deriving DecidableEq, Repr

/-- Embedding of `impl From<io::Error> for WebError`. -/
def ioErrToWeb : IoErr → WebError
  | .notFound => .NotFound
  | _ => .IoError

/-- Struct `PageStub` of src/src/web.rs / src/src/page.rs. -/
structure PageStub where
  name : String
deriving DecidableEq, Repr

/-- Struct `WebStub` of src/src/web.rs. -/
structure WebStub where
  name : String
deriving DecidableEq, Repr

/-- Struct `Web` of src/src/web.rs. -/
structure Web where
  name : String
  path : FsPath
deriving DecidableEq, Repr

/-- Embedding of `Web::get_page_stubs` exactly as it stands in
src/src/web.rs: the entries of the web directory are filtered with
`path.is_file()` (this iteration of web.rs stores each page as a single
flat file) and with `path.to_str().is_some()`, then mapped to the file
name. -/
def Web.get_page_stubs (fs : Fs) (web : Web) : Except WebError (List PageStub) :=
  match fs.readDir web.path with
  | .error e => .error (ioErrToWeb e)
  | .ok entries =>
    .ok ((entries.filter (fun p => fs.isFile p && p.utf8Ok)).map
      (fun p => ⟨(OsStr.toStr (p.fileName.getD [])).getD ""⟩))

/-- Embedding of `Webs::get_web_stubs` from src/src/web.rs, which filters
with `path.is_dir()`. -/
def Webs.get_web_stubs (fs : Fs) (rootPath : FsPath) : Except WebError (List WebStub) :=
  match fs.readDir rootPath with
  | .error e => .error (ioErrToWeb e)
  | .ok entries =>
    .ok ((entries.filter (fun p => fs.isDir p && p.utf8Ok)).map
      (fun p => ⟨(OsStr.toStr (p.fileName.getD [])).getD ""⟩))

/-- Struct `Webs` of src/src/web.rs. -/
structure Webs where
  path : FsPath
deriving Repr

/-- Embedding of `Webs::get_web`: a web exists iff `root/name` is a
directory. -/
def Webs.get_web (fs : Fs) (webs : Webs) (name : String) : Option Web :=
  let p := webs.path ++ [osOf name]
  if fs.isDir p then some ⟨name, p⟩ else none

/-- Embedding of `Webs::create_web`: overwrite check on `Path::exists`, then
one `fs::create_dir`. -/
def Webs.create_web (fs : Fs) (webs : Webs) (name : String) :
    Except WebError Web × Fs :=
  let p := webs.path ++ [osOf name]
  if fs.pathExists p then (.error .OverwriteError, fs)
  else
    match fs.createDir p with
    | .error e => (.error (ioErrToWeb e), fs)
    | .ok fs1 => (.ok ⟨name, p⟩, fs1)

/-- Modelled from the spec: §4.3 `open_page(name)` delegates to Page's open
contract at `web_dir/name`.  The iteration of web.rs present under src/
predates the directory-page layout that src/src/lib.rs calls
(`web.get_page(..).detail` and `web.new_page(..)`); the delegating wrapper
itself is therefore missing from src/ and is modelled from the spec's
words. -/
def Web.get_page (fs : Fs) (web : Web) (name : String) : Except PageError Page :=
  Page.openAt fs (web.path ++ [osOf name])

/-- Modelled from the spec: §4.3 `new_page(detail)` is pure construction of a
Page bound to `web_dir/detail.name`, touching no filesystem state. -/
def Web.new_page (web : Web) (detail : PageDetail) : Page :=
  ⟨web.path ++ [osOf detail.name], detail⟩

/-! Version store.  Spec §3 (Version), §4.4 (shared write path) and §6
(`versions/<hash>.json` layout) describe a content-addressed version store
that is absent from the src/ iteration of page.rs (its `Page::write` above
only rewrites page.json), while src/src/router.rs still declares the
version routes.  The shared write path is therefore modelled from the
spec over an explicit page-store state. -/

/-- State of one page's store: the current-detail file contents and the
version files keyed by content hash, mirroring
`<page>/page.json` and `<page>/versions/<hash>.json`. -/
structure PageStoreState where
  detailFile : Option (List Nat)
  versions : List (Nat × List Nat)
deriving DecidableEq, Repr

/-- Modelled from the spec: the §4.4 shared write path — serialize the
PageDetail, overwrite the current-detail file, compute the content hash of
those exact bytes, and create `versions/<hash>.json` only when no version
file for that hash exists yet. -/
def sharedWrite (st : PageStoreState) (d : PageDetail) : PageStoreState :=
  let bytes := serializeDetail d
  let h := contentHash bytes
  { detailFile := some bytes
    versions :=
      if st.versions.any (fun v => v.1 = h) then st.versions
      else (h, bytes) :: st.versions }

/-! Embedding of src/src/router.rs. -/

/-- Compiled form of one path-pattern segment: a literal or a `:name`
parameter (regex `(?P<name>[^/]+)`). -/
inductive Seg where
  | lit (s : String)
  | param (name : String)
deriving DecidableEq, Repr

/-- Struct `ParamPath`: declared parameter names plus the compiled
segment list standing for the anchored regex. -/
structure ParamPath where
  names : List String
  segs : List Seg
deriving Repr

/-- Embedding of `ParamPath::new`: walk the `/`-separated parts after the
leading empty part; a part starting with `:` compiles to a named capture and
records its name, anything else to a literal. -/
def ParamPath.new (pattern : String) : ParamPath :=
  let parts := ((splitOnChar '/' pattern.data).map String.mk).drop 1
  let r := parts.foldl
    (fun (acc : List String × List Seg) (part : String) =>
      match part.data with
      | ':' :: rest => (acc.1 ++ [String.mk rest], acc.2 ++ [Seg.param (String.mk rest)])
      | _ => (acc.1, acc.2 ++ [Seg.lit part]))
    ([], [])
  ⟨r.1, r.2⟩

/-- Matching semantics of the compiled anchored regex: component-wise match
of the path's segments, literals verbatim, parameters one non-empty
component; yields the captures in order. -/
def segsMatch : List Seg → List String → Option (List (String × String))
  | [], [] => some []
  | Seg.lit s :: segs, c :: cs => if c = s then segsMatch segs cs else none
  | Seg.param n :: segs, c :: cs =>
    if c = "" then none
    else
      match segsMatch segs cs with
      | some caps => some ((n, c) :: caps)
      | none => none
  | _, _ => none

/-- Model of `Regex::captures` for the compiled pattern: the path must begin
with `/` (the leading empty split component) and match segment-wise. -/
def ParamPath.captures (pp : ParamPath) (path : String) :
    Option (List (String × String)) :=
  match splitOnChar '/' path.data with
  | [] :: comps => segsMatch pp.segs (comps.map String.mk)
  | _ => none

/-- Insert-or-replace on an association list; models the observable
behaviour of the `HashMap` built in `ParamPath::test`. -/
def mapInsert (m : List (String × String)) (k v : String) : List (String × String) :=
  if m.any (fun p => p.1 = k) then m.map (fun p => if p.1 = k then (k, v) else p)
  else m ++ [(k, v)]

/-- Lookup in the capture list; models `caps.name(name)`. -/
def capLookup (caps : List (String × String)) (n : String) : Option String :=
  (caps.find? (fun p => p.1 = n)).map Prod.snd

/-- Embedding of `ParamPath::test`: on a regex match, fold the declared
names into a map and succeed only when the map has exactly as many entries
as declared names. -/
def ParamPath.test (pp : ParamPath) (path : String) :
    Option (List (String × String)) :=
  match pp.captures path with
  | none => none
  | some caps =>
    let m := pp.names.foldl
      (fun m n =>
        match capLookup caps n with
        | some v => mapInsert m n v
        | none => m)
      []
    if m.length = pp.names.length then some m else none

/-- Model of `params.remove(name).unwrap()` (the unwrap can only be reached
after a successful `test`, which binds every declared name). -/
def mapGet (m : List (String × String)) (k : String) : String :=
  ((m.find? (fun p => p.1 = k)).map Prod.snd).getD ""

/-- Enum `Route` of src/src/router.rs. -/
inductive Route where
  | ListWebs
  | CreateWeb
  | ListPages (web_name : String)
  | CreatePage (web_name : String)
  | ShowPage (web_name : String) (page_name : String)
  | UpdatePage (web_name : String) (page_name : String)
  | ListAttachments (web_name : String) (page_name : String)
  | CreateAttachment (web_name : String) (page_name : String)
  | ServeAttachment (web_name : String) (page_name : String) (attachment_name : String)
  | ListPageVersions (web_name : String) (page_name : String)
  | ShowPageVersion (web_name : String) (page_name : String) (version_hash : String)
  | Invalid
deriving DecidableEq, Repr

/-- HTTP methods the router distinguishes. -/
inductive Method where
  | get
  | post
  | put
  | otherMethod
deriving DecidableEq, Repr

def WEBS_PATH : ParamPath := ParamPath.new "/webs"
def PAGES_PATH : ParamPath := ParamPath.new "/webs/:web_name/pages"
def PAGE_PATH : ParamPath := ParamPath.new "/webs/:web_name/pages/:page_name"
def ATTACHMENTS_PATH : ParamPath :=
  ParamPath.new "/webs/:web_name/pages/:page_name/attachments"
def ATTACHMENT_PATH : ParamPath :=
  ParamPath.new "/webs/:web_name/pages/:page_name/attachments/:attachment_name"
def VERSIONS_PATH : ParamPath :=
  ParamPath.new "/webs/:web_name/pages/:page_name/versions"
def VERSION_PATH : ParamPath :=
  ParamPath.new "/webs/:web_name/pages/:page_name/versions/:version_hash"

/-- Embedding of `impl From<&Request> for Route` (named `ofRequest`; `from`
is a Lean keyword): the per-method if-let chains in source order. -/
def Route.ofRequest (method : Method) (path : String) : Route :=
  match method with
  | .get =>
    match WEBS_PATH.test path with
    | some _ => .ListWebs
    | none =>
      match PAGES_PATH.test path with
      | some params => .ListPages (mapGet params "web_name")
      | none =>
        match PAGE_PATH.test path with
        | some params => .ShowPage (mapGet params "web_name") (mapGet params "page_name")
        | none =>
          match ATTACHMENTS_PATH.test path with
          | some params =>
            .ListAttachments (mapGet params "web_name") (mapGet params "page_name")
          | none =>
            match ATTACHMENT_PATH.test path with
            | some params =>
              .ServeAttachment (mapGet params "web_name") (mapGet params "page_name")
                (mapGet params "attachment_name")
            | none =>
              match VERSIONS_PATH.test path with
              | some params =>
                .ListPageVersions (mapGet params "web_name") (mapGet params "page_name")
              | none =>
                match VERSION_PATH.test path with
                | some params =>
                  .ShowPageVersion (mapGet params "web_name") (mapGet params "page_name")
                    (mapGet params "version_hash")
                | none => .Invalid
  | .post =>
    match WEBS_PATH.test path with
    | some _ => .CreateWeb
    | none =>
      match PAGES_PATH.test path with
      | some params => .CreatePage (mapGet params "web_name")
      | none =>
        match ATTACHMENTS_PATH.test path with
        | some params =>
          .CreateAttachment (mapGet params "web_name") (mapGet params "page_name")
        | none => .Invalid
  | .put =>
    match PAGE_PATH.test path with
    | some params => .UpdatePage (mapGet params "web_name") (mapGet params "page_name")
    | none => .Invalid
  | .otherMethod => .Invalid

/-! Embedding of the src/src/lib.rs handlers the claims touch. -/

/-- HTTP status outcomes distinguished by the handlers. -/
inductive HStatus where
  | okStatus
  | badRequest
  | notFoundStatus
  | internalError
deriving DecidableEq, Repr

/-- Embedding of the `Route::UpdatePage` arm of `BioWiki::call`
(src/src/lib.rs lines 160-205): resolve web, open page, receive body, parse
`PageDetail`, reject on parse failure or on `page_name != detail.name`
before any write, else `page.update()`. -/
def updatePageHandler (fs : Fs) (webs : Webs) (web_name page_name : String)
    (body : List Nat) : HStatus × Fs :=
  match Webs.get_web fs webs web_name with
  | none => (.notFoundStatus, fs)
  | some web =>
    match Web.get_page fs web page_name with
    | .error .NotFound => (.notFoundStatus, fs)
    | .error _ => (.internalError, fs)
    | .ok page =>
      match parseDetail body with
      | none => (.badRequest, fs)
      | some detail =>
        if page_name ≠ detail.name then (.badRequest, fs)
        else
          match Page.update fs { page with detail := detail } with
          | (.error .NotFound, fs1) => (.notFoundStatus, fs1)
          | (.error _, fs1) => (.internalError, fs1)
          | (.ok _, fs1) => (.okStatus, fs1)

/-- Embedding of the `Route::CreateAttachment` arm of `BioWiki::call`
(src/src/lib.rs lines 235-278): resolve web, open page, receive body, parse
`AttachmentData`, reject on parse failure or invalid file name before any
write, else `page.save_attachment(..)`. -/
def createAttachmentHandler (fs : Fs) (webs : Webs) (web_name page_name : String)
    (body : List Nat) : HStatus × Fs :=
  match Webs.get_web fs webs web_name with
  | none => (.notFoundStatus, fs)
  | some web =>
    match Web.get_page fs web page_name with
    | .error .NotFound => (.notFoundStatus, fs)
    | .error _ => (.internalError, fs)
    | .ok page =>
      match parseAttData body with
      | none => (.badRequest, fs)
      | some att =>
        if ¬ att.is_file_name_valid then (.badRequest, fs)
        else
          match Page.save_attachment fs page att with
          | (.error .Base64Error, fs1) => (.badRequest, fs1)
          | (.error _, fs1) => (.internalError, fs1)
          | (.ok _, fs1) => (.okStatus, fs1)

/-! Theorems.  Helper lemmas first, then one theorem per claim. -/

/-- Keys of an association list. -/
def keysOf (m : List (String × String)) : List String := m.map Prod.fst

theorem mapInsert_keys (m : List (String × String)) (k v : String) :
    keysOf (mapInsert m k v)
      = if k ∈ keysOf m then keysOf m else keysOf m ++ [k] := by
  unfold mapInsert keysOf
  by_cases h : k ∈ m.map Prod.fst
  · rw [if_pos h]
    have hany : m.any (fun p => p.1 = k) = true := by
      rw [List.any_eq_true]
      obtain ⟨p, hp, he⟩ := List.mem_map.mp h
      exact ⟨p, hp, by simp [he]⟩
    rw [if_pos hany, List.map_map]
    apply List.map_congr_left
    intro p _
    by_cases hpk : p.1 = k
    · simp [hpk]
    · simp [hpk]
  · rw [if_neg h]
    have hany : ¬ m.any (fun p => p.1 = k) = true := by
      rw [List.any_eq_true]
      rintro ⟨p, hp, he⟩
      exact h (List.mem_map.mpr ⟨p, hp, by simpa using he⟩)
    rw [if_neg hany]
    simp

theorem mapInsert_keys_nodup (m : List (String × String)) (k v : String)
    (h : (keysOf m).Nodup) : (keysOf (mapInsert m k v)).Nodup := by
  rw [mapInsert_keys]
  by_cases hk : k ∈ keysOf m
  · rwa [if_pos hk]
  · rw [if_neg hk]
    simp [List.nodup_append, h, hk]

theorem mapInsert_keys_sub (m : List (String × String)) (k v x : String)
    (h : x ∈ keysOf (mapInsert m k v)) : x ∈ keysOf m ∨ x = k := by
  rw [mapInsert_keys] at h
  by_cases hk : k ∈ keysOf m
  · rw [if_pos hk] at h
    exact Or.inl h
  · rw [if_neg hk] at h
    rcases List.mem_append.mp h with h1 | h1
    · exact Or.inl h1
    · exact Or.inr (by simpa using h1)

/-- Shape of the map-building fold inside `ParamPath::test`. -/
def testFold (caps : List (String × String)) (names : List String)
    (m : List (String × String)) : List (String × String) :=
  names.foldl
    (fun m n =>
      match capLookup caps n with
      | some v => mapInsert m n v
      | none => m)
    m

theorem test_eq_testFold (pp : ParamPath) (path : String) :
    pp.test path
      = match pp.captures path with
        | none => none
        | some caps =>
          let m := testFold caps pp.names []
          if m.length = pp.names.length then some m else none := rfl

theorem testFold_keys_nodup (caps : List (String × String)) (names : List String) :
    ∀ m : List (String × String), (keysOf m).Nodup → (keysOf (testFold caps names m)).Nodup := by
  induction names with
  | nil => intro m h; exact h
  | cons n ns ih =>
    intro m h
    show (keysOf (testFold caps ns _)).Nodup
    cases hc : capLookup caps n with
    | none => simpa [testFold, hc] using ih m h
    | some v =>
      simpa [testFold, hc] using ih (mapInsert m n v) (mapInsert_keys_nodup m n v h)

theorem testFold_keys_sub (caps : List (String × String)) (names : List String) :
    ∀ m : List (String × String), ∀ x ∈ keysOf (testFold caps names m),
      x ∈ keysOf m ∨ x ∈ names := by
  induction names with
  | nil => intro m x hx; exact Or.inl hx
  | cons n ns ih =>
    intro m x hx
    cases hc : capLookup caps n with
    | none =>
      rcases ih m x (by simpa [testFold, hc] using hx) with h | h
      · exact Or.inl h
      · exact Or.inr (by simp [h])
    | some v =>
      rcases ih (mapInsert m n v) x (by simpa [testFold, hc] using hx) with h | h
      · rcases mapInsert_keys_sub m n v x h with h1 | h1
        · exact Or.inl h1
        · exact Or.inr (by simp [h1])
      · exact Or.inr (by simp [h])

theorem filter_key_length (m : List (String × String)) (n : String)
    (hnd : (keysOf m).Nodup) (hm : n ∈ keysOf m) :
    (m.filter (fun p => p.1 = n)).length = 1 := by
  induction m with
  | nil => simp [keysOf] at hm
  | cons p rest ih =>
    have hcons : (p.1 :: keysOf rest).Nodup := by
      simpa [keysOf] using hnd
    have hnd' := List.nodup_cons.mp hcons
    by_cases hpk : p.1 = n
    · have hnotin : n ∉ keysOf rest := by
        have h1 := hnd'.1
        rw [hpk] at h1
        exact h1
      have hfil : rest.filter (fun p => p.1 = n) = [] := by
        rw [List.filter_eq_nil_iff]
        intro q hq
        simp only [decide_eq_true_eq]
        intro hq1
        exact hnotin (by simpa [keysOf, hq1] using List.mem_map_of_mem Prod.fst hq)
      simp [List.filter_cons, hpk, hfil]
    · have hm' : n ∈ keysOf rest := by
        rcases (by simpa [keysOf] using hm : n = p.1 ∨ n ∈ keysOf rest) with h | h
        · exact absurd h.symm hpk
        · exact h
      simp [List.filter_cons, hpk, ih hnd'.2 hm']

theorem test_binds_each_name (pp : ParamPath) (path : String)
    (m : List (String × String)) (h : pp.test path = some m) :
    ∀ n ∈ pp.names, (m.filter (fun p => p.1 = n)).length = 1 := by
  intro n hn
  rw [test_eq_testFold] at h
  cases hc : pp.captures path with
  | none => rw [hc] at h; exact absurd h (by simp)
  | some caps =>
    rw [hc] at h
    simp only at h
    by_cases hlen : (testFold caps pp.names []).length = pp.names.length
    · rw [if_pos hlen] at h
      have hm : m = testFold caps pp.names [] := (Option.some_injective _ h).symm
      have hnd : (keysOf (testFold caps pp.names [])).Nodup :=
        testFold_keys_nodup caps pp.names [] (by simp [keysOf])
      have hsub : ∀ x ∈ keysOf (testFold caps pp.names []), x ∈ pp.names := by
        intro x hx
        rcases testFold_keys_sub caps pp.names [] x hx with h1 | h1
        · simp [keysOf] at h1
        · exact h1
      have hklen : (keysOf (testFold caps pp.names [])).length = pp.names.length := by
        rw [keysOf, List.length_map]
        exact hlen
      have hmem : n ∈ keysOf (testFold caps pp.names []) := by
        have hfsub : (keysOf (testFold caps pp.names [])).toFinset ⊆ pp.names.toFinset := by
          intro x hx
          exact List.mem_toFinset.mpr (hsub x (List.mem_toFinset.mp hx))
        have hc1 : (keysOf (testFold caps pp.names [])).toFinset.card
            = (keysOf (testFold caps pp.names [])).length :=
          List.toFinset_card_of_nodup hnd
        have hc2 : pp.names.toFinset.card ≤ pp.names.length := pp.names.toFinset_card_le
        have heq : pp.names.toFinset = (keysOf (testFold caps pp.names [])).toFinset :=
          (Finset.eq_of_subset_of_card_le hfsub (by omega)).symm
        exact List.mem_toFinset.mp (heq ▸ List.mem_toFinset.mpr hn)
      rw [hm]
      exact filter_key_length _ n hnd hmem
    · rw [if_neg hlen] at h
      exact absurd h (by simp)

/-- Claim C3: the compiled pattern `GET /webs/:web_name/pages/:page_name`
matches `/webs/alpha/pages/beta` with exactly the bindings
`web_name = alpha`, `page_name = beta` and is classified `ShowPage`;
`/webs/alpha` does not match that pattern; and for every pattern and path a
successful `ParamPath::test` binds exactly one value per declared parameter
name (a match with fewer captured groups than declared parameters is
treated as no match). -/
theorem claim_C3 :
    (Route.ofRequest Method.get "/webs/alpha/pages/beta" = Route.ShowPage "alpha" "beta")
    ∧ (PAGE_PATH.test "/webs/alpha/pages/beta"
        = some [("web_name", "alpha"), ("page_name", "beta")])
    ∧ (PAGE_PATH.test "/webs/alpha" = none)
    ∧ (∀ (pattern path : String) (m : List (String × String)),
        (ParamPath.new pattern).test path = some m →
        ∀ n ∈ (ParamPath.new pattern).names, (m.filter (fun p => p.1 = n)).length = 1) :=
  ⟨by rfl, by rfl, by rfl,
   fun pattern path m h => test_binds_each_name (ParamPath.new pattern) path m h⟩

/-- Witness for C3: the universal part applied at the concrete pattern and
path of the claim. -/
theorem claim_C3_witness :
    ([("web_name", "alpha"), ("page_name", "beta")].filter
      (fun p => p.1 = "web_name")).length = 1
    ∧ ([("web_name", "alpha"), ("page_name", "beta")].filter
      (fun p => p.1 = "page_name")).length = 1 :=
  ⟨claim_C3.2.2.2 "/webs/:web_name/pages/:page_name" "/webs/alpha/pages/beta"
      [("web_name", "alpha"), ("page_name", "beta")] (by rfl) "web_name" (by decide),
   claim_C3.2.2.2 "/webs/:web_name/pages/:page_name" "/webs/alpha/pages/beta"
      [("web_name", "alpha"), ("page_name", "beta")] (by rfl) "page_name" (by decide)⟩

/-- Mime table exactly as the claim words it: png yields image/png, jpg and
jpeg yield image/jpeg, anything else (missing or non-UTF8 extension
included) yields application/octet-stream, all case-insensitively. -/
def claimedMime (att : Attachment) : Mime :=
  match FsPath.extension att.path with
  | none => .octetStream
  | some e =>
    match e.toStr with
    | none => .octetStream
    | some s =>
      if ciEq s.data "png".data then .imagePng
      else if ciEq s.data "jpg".data || ciEq s.data "jpeg".data then .imageJpeg
      else .octetStream

/-- Counterexample to C4 as stated: on a `.jpg` attachment the wired
`mime_type` (src/src/page.rs) answers application/octet-stream, not the
image/jpeg the claimed table demands. -/
theorem claim_C4_counterexample :
    Attachment.mime_type ⟨[osOf "photo.jpg"]⟩ = Mime.octetStream
    ∧ claimedMime ⟨[osOf "photo.jpg"]⟩ = Mime.imageJpeg
    ∧ Mime.octetStream ≠ Mime.imageJpeg := by
  refine ⟨by decide, by decide, by decide⟩

/-- Claim C4 (amended): mime types are derived purely from the filename
extension and never from file content (the embedded functions do not read
the filesystem at all); the unwired src/src/attachment.rs variant realises
exactly the claimed table, while the wired src/src/page.rs variant maps
only png to image/png and everything else — jpg and jpeg included — to
application/octet-stream. -/
theorem claim_C4_amended (att : Attachment) :
    Attachment.mime_type_alt att = claimedMime att
    ∧ Attachment.mime_type att
        = (if claimedMime att = Mime.imagePng then Mime.imagePng else Mime.octetStream) := by
  constructor
  · rfl
  · cases hext : FsPath.extension att.path with
    | none => simp [Attachment.mime_type, claimedMime, hext]
    | some e =>
      cases hts : OsStr.toStr e with
      | none => simp [Attachment.mime_type, claimedMime, hext, hts]
      | some s =>
        by_cases h1 : ciEq s.data "png".data = true
        · simp [Attachment.mime_type, claimedMime, hext, hts, h1]
        · by_cases h2 : (ciEq s.data "jpg".data || ciEq s.data "jpeg".data) = true
          · simp [Attachment.mime_type, claimedMime, hext, hts, h1, h2]
          · simp [Attachment.mime_type, claimedMime, hext, hts, h1, h2]

/-- Bool form of the loose `name.ext` pattern of the claim (`^.+\.\x2e+$`
read as: one or more characters, a dot, one or more characters): some dot
occurs at a position that is neither first nor last. -/
def looseFileName (s : String) : Bool := decide ('.' ∈ (s.data.drop 1).dropLast)

theorem splitOnChar_ne_nil (sep : Char) (l : List Char) : splitOnChar sep l ≠ [] := by
  cases l with
  | nil => simp [splitOnChar]
  | cons c cs =>
    unfold splitOnChar
    by_cases h : c = sep
    · simp [h]
    · simp only [if_neg h]
      cases splitOnChar sep cs with
      | nil => simp
      | cons a b => simp

theorem splitOnChar_single (sep : Char) (l t : List Char)
    (h : splitOnChar sep l = [t]) : l = t := by
  induction l generalizing t with
  | nil =>
    simp [splitOnChar] at h
    exact h.symm
  | cons c cs ih =>
    unfold splitOnChar at h
    by_cases hc : c = sep
    · rw [if_pos hc] at h
      cases hr : splitOnChar sep cs with
      | nil => exact absurd hr (splitOnChar_ne_nil sep cs)
      | cons a b =>
        rw [hr] at h
        simp at h
    · rw [if_neg hc] at h
      cases hr : splitOnChar sep cs with
      | nil => exact absurd hr (splitOnChar_ne_nil sep cs)
      | cons a b =>
        rw [hr] at h
        simp only [List.cons.injEq] at h
        obtain ⟨h1, h2⟩ := h
        rw [h2] at hr
        rw [← h1, ih a hr]

theorem splitOnChar_pair (sep : Char) (l s t : List Char)
    (h : splitOnChar sep l = [s, t]) : l = s ++ sep :: t := by
  induction l generalizing s t with
  | nil => simp [splitOnChar] at h
  | cons c cs ih =>
    unfold splitOnChar at h
    by_cases hc : c = sep
    · rw [if_pos hc] at h
      cases hr : splitOnChar sep cs with
      | nil => exact absurd hr (splitOnChar_ne_nil sep cs)
      | cons a b =>
        rw [hr] at h
        simp only [List.cons.injEq] at h
        obtain ⟨h1, h2, h3⟩ := h
        rw [h3] at hr
        rw [hc, ← h1, ← h2, splitOnChar_single sep cs a hr]
        simp
    · rw [if_neg hc] at h
      cases hr : splitOnChar sep cs with
      | nil => exact absurd hr (splitOnChar_ne_nil sep cs)
      | cons a b =>
        rw [hr] at h
        simp only [List.cons.injEq] at h
        obtain ⟨h1, h2⟩ := h
        rw [h2] at hr
        rw [← h1, ih a t hr]
        simp

theorem valid_implies_loose (a : AttachmentData)
    (h : a.is_file_name_valid = true) : looseFileName a.file_name = true := by
  unfold AttachmentData.is_file_name_valid at h
  cases hs : splitOnChar '.' a.file_name.data with
  | nil => rw [hs] at h; simp at h
  | cons s r =>
    cases r with
    | nil => rw [hs] at h; simp at h
    | cons t r2 =>
      cases r2 with
      | cons u r3 => rw [hs] at h; simp at h
      | nil =>
        rw [hs] at h
        simp only [Bool.and_eq_true, Bool.not_eq_true'] at h
        obtain ⟨⟨⟨hse, hte⟩, _⟩, _⟩ := h
        have hdecomp : a.file_name.data = s ++ '.' :: t :=
          splitOnChar_pair '.' _ s t hs
        unfold looseFileName
        rw [decide_eq_true_iff, hdecomp]
        obtain ⟨c, s', rfl⟩ : ∃ c s', s = c :: s' := by
          cases s with
          | nil => simp at hse
          | cons c s' => exact ⟨c, s', rfl⟩
        obtain ⟨t0, t1, rfl⟩ : ∃ t0 t1, t = t0 :: t1 := by
          cases t with
          | nil => simp at hte
          | cons t0 t1 => exact ⟨t0, t1, rfl⟩
        simp only [List.cons_append, List.drop_succ_cons, List.drop_zero]
        rw [List.dropLast_append_of_ne_nil _ (by simp)]
        simp

/-- Claim C8: a CreateAttachment request whose parsed body carries a file
name that does not even match the loose `name.ext` pattern (for example
`noext`, which has no dot) is answered 400 Bad Request with the filesystem
untouched — the validity check `is_file_name_valid` runs before
`save_attachment`, and the strict `^\w+\.\w+$` check rejects everything the
loose pattern rejects. -/
theorem claim_C8 (fs : Fs) (webs : Webs) (web_name page_name : String)
    (body : List Nat) (web : Web) (page : Page) (att : AttachmentData)
    (hweb : Webs.get_web fs webs web_name = some web)
    (hpage : Web.get_page fs web page_name = .ok page)
    (hparse : parseAttData body = some att)
    (hloose : looseFileName att.file_name = false) :
    createAttachmentHandler fs webs web_name page_name body = (.badRequest, fs) := by
  have hvalid : att.is_file_name_valid = false := by
    cases hv : att.is_file_name_valid
    · rfl
    · rw [valid_implies_loose att hv] at hloose
      exact absurd hloose (by simp)
  simp only [createAttachmentHandler, hweb, hpage, hparse]
  simp [hvalid]

/-- Claim C10: when the incoming base64 payload does not decode,
`save_attachment` answers `Base64Error` and returns the filesystem
unchanged — the decode happens before any filesystem operation, so in
particular no `attachments/` directory is created and no file is
written. -/
theorem claim_C10 (fs : Fs) (page : Page) (att : AttachmentData)
    (hdec : b64DecodeStr att.encoded_data = none) :
    Page.save_attachment fs page att = (.error .Base64Error, fs) := by
  simp only [Page.save_attachment, AttachmentData.data, hdec]

/-- Witness for C10 at a concrete state: `!` is not valid base64. -/
theorem claim_C10_witness :
    Page.save_attachment ⟨[], []⟩ ⟨[osOf "p"], ⟨"p", "t", "c"⟩⟩ ⟨"photo.png", "!"⟩
      = (.error .Base64Error, ⟨[], []⟩) :=
  claim_C10 ⟨[], []⟩ ⟨[osOf "p"], ⟨"p", "t", "c"⟩⟩ ⟨"photo.png", "!"⟩ (by decide)

/-- Claim C2: opening a page directory whose name (as UTF-8) differs from
the `name` stored in its page.json fails with `NameMismatch`, and `openAt`
never returns a page whose `detail.name` differs from the directory's last
path component. -/
theorem claim_C2 :
    (∀ (fs : Fs) (path : FsPath) (fn : OsStr) (comp : String) (bytes : List Nat)
        (detail : PageDetail),
      fs.isDir path = true →
      path.fileName = some fn →
      OsStr.toStr fn = some comp →
      fs.readFile (path ++ [osOf PAGE_FILENAME]) = some bytes →
      parseDetail bytes = some detail →
      detail.name ≠ comp →
      Page.openAt fs path = .error .NameMismatch)
    ∧ (∀ (fs : Fs) (path : FsPath) (page : Page) (fn : OsStr) (comp : String),
      Page.openAt fs path = .ok page →
      path.fileName = some fn →
      OsStr.toStr fn = some comp →
      page.detail.name = comp) := by
  constructor
  · intro fs path fn comp bytes detail hdir hfn hts hread hparse hne
    have hex : fs.pathExists path = true := by
      simp [Fs.pathExists, hdir]
    simp only [Page.openAt, hex, hdir, hfn, hts, hread, hparse]
    simp [hne]
  · intro fs path page fn comp hok hfn hts
    unfold Page.openAt at hok
    by_cases h1 : fs.pathExists path = true
    · by_cases h2 : fs.isDir path = true
      · simp only [h1, h2, not_true, if_false] at hok
        simp only [hfn, hts] at hok
        cases hread : fs.readFile (path ++ [osOf PAGE_FILENAME]) with
        | none => simp only [hread] at hok; exact absurd hok (by simp)
        | some bytes =>
          simp only [hread] at hok
          cases hparse : parseDetail bytes with
          | none => simp only [hparse] at hok; exact absurd hok (by simp)
          | some detail =>
            simp only [hparse] at hok
            by_cases hne : detail.name ≠ comp
            · simp [hne] at hok
            · have hname : detail.name = comp := not_not.mp hne
              simp only [hne, if_false] at hok
              have hpage : Page.mk path detail = page := by
                simpa using hok
              rw [← hpage]
              exact hname
      · simp [h1, h2] at hok
    · simp [h1] at hok

/-- Witness filesystem for the handler claims: a store root `r` holding a
web `w` with one page directory `p` whose page.json holds the detail
`⟨p, t, c⟩`. -/
def fsW : Fs :=
  { dirs := [[osOf "r"], [osOf "r", osOf "w"], [osOf "r", osOf "w", osOf "p"]]
    files := [([osOf "r", osOf "w", osOf "p", osOf "page.json"],
      serializeDetail ⟨"p", "t", "c"⟩)] }

def websW : Webs := ⟨[osOf "r"]⟩

def webW : Web := ⟨"w", [osOf "r", osOf "w"]⟩

def pageW : Page := ⟨[osOf "r", osOf "w", osOf "p"], ⟨"p", "t", "c"⟩⟩

/-- Witness for C2: a directory named `beta` whose page.json stores the name
`gamma` opens as `NameMismatch`. -/
theorem claim_C2_witness :
    Page.openAt
      ⟨[[osOf "beta"]],
       [([osOf "beta", osOf "page.json"], serializeDetail ⟨"gamma", "t", "c"⟩)]⟩
      [osOf "beta"]
      = .error .NameMismatch :=
  claim_C2.1 _ _ (osOf "beta") "beta" (serializeDetail ⟨"gamma", "t", "c"⟩)
    ⟨"gamma", "t", "c"⟩ (by decide) (by decide) (by decide) (by decide) (by decide)
    (by decide)

/-- Claim C5: an UpdatePage request whose body parses to a detail whose name
differs from the `:page_name` path segment is answered 400 Bad Request with
the filesystem unchanged (in particular the page's current-detail file is
untouched). -/
theorem claim_C5 (fs : Fs) (webs : Webs) (web_name page_name : String)
    (body : List Nat) (web : Web) (page : Page) (detail : PageDetail)
    (hweb : Webs.get_web fs webs web_name = some web)
    (hpage : Web.get_page fs web page_name = .ok page)
    (hparse : parseDetail body = some detail)
    (hne : detail.name ≠ page_name) :
    updatePageHandler fs webs web_name page_name body = (.badRequest, fs) := by
  have hne2 : page_name ≠ detail.name := Ne.symm hne
  simp only [updatePageHandler, hweb, hpage, hparse]
  simp [hne2]

/-- Witness for C5: updating page `p` with a body whose detail is named `q`
is rejected with 400 and the store is unchanged. -/
theorem claim_C5_witness :
    updatePageHandler fsW websW "w" "p" (serializeDetail ⟨"q", "t", "c"⟩)
      = (.badRequest, fsW) :=
  claim_C5 fsW websW "w" "p" (serializeDetail ⟨"q", "t", "c"⟩) webW pageW
    ⟨"q", "t", "c"⟩ (by decide) (by rfl) (by rfl) (by decide)

/-- Witness for C8: the file name `noext` (no dot) is rejected with 400 and
the store is unchanged. -/
theorem claim_C8_witness :
    createAttachmentHandler fsW websW "w" "p" (serializeAttData ⟨"noext", "AQID"⟩)
      = (.badRequest, fsW) :=
  claim_C8 fsW websW "w" "p" (serializeAttData ⟨"noext", "AQID"⟩) webW pageW
    ⟨"noext", "AQID"⟩ (by decide) (by rfl) (by rfl) (by decide)

theorem sharedWrite_any_self (st : PageStoreState) (d : PageDetail) :
    (sharedWrite st d).versions.any
      (fun v => v.1 = contentHash (serializeDetail d)) = true := by
  unfold sharedWrite
  by_cases h : st.versions.any (fun v => v.1 = contentHash (serializeDetail d)) = true
  · simpa [h] using h
  · simp [h]

theorem sharedWrite_any_mono (st : PageStoreState) (d : PageDetail)
    (p : Nat × List Nat → Bool) (hp : st.versions.any p = true) :
    (sharedWrite st d).versions.any p = true := by
  unfold sharedWrite
  by_cases h : st.versions.any (fun v => v.1 = contentHash (serializeDetail d)) = true
  · simpa [h] using hp
  · simp [h, hp]

theorem sharedWrite_noop (st : PageStoreState) (d : PageDetail)
    (h : st.versions.any (fun v => v.1 = contentHash (serializeDetail d)) = true) :
    (sharedWrite st d).versions = st.versions := by
  unfold sharedWrite
  simp [h]

theorem sharedWrite_from_empty (st : PageStoreState) (d : PageDetail)
    (h : st.versions = []) :
    (sharedWrite st d).versions
      = [(contentHash (serializeDetail d), serializeDetail d)] := by
  unfold sharedWrite
  simp [h]

/-- Claim C1: for the spec-modelled shared write path, writing D1 then D2
with D1 ≠ D2 leaves version entries for both content hashes, and those
hashes — and hence the `versions/<hex>.json` file names derived from them —
are distinct; rewriting the same D1 is a no-op on the version history, and
from an empty history writing D1 twice leaves exactly one version entry,
keyed by the content hash of the serialized bytes and holding those
bytes. -/
theorem claim_C1 (st : PageStoreState) (D1 D2 : PageDetail) :
    (D1 ≠ D2 →
      contentHash (serializeDetail D1) ≠ contentHash (serializeDetail D2)
      ∧ versionFileName (contentHash (serializeDetail D1))
          ≠ versionFileName (contentHash (serializeDetail D2))
      ∧ (sharedWrite (sharedWrite st D1) D2).versions.any
          (fun v => v.1 = contentHash (serializeDetail D1)) = true
      ∧ (sharedWrite (sharedWrite st D1) D2).versions.any
          (fun v => v.1 = contentHash (serializeDetail D2)) = true)
    ∧ (sharedWrite (sharedWrite st D1) D1).versions = (sharedWrite st D1).versions
    ∧ (st.versions = [] →
      (sharedWrite (sharedWrite st D1) D1).versions
        = [(contentHash (serializeDetail D1), serializeDetail D1)]) := by
  refine ⟨?_, ?_, ?_⟩
  · intro hD
    have hhash : contentHash (serializeDetail D1) ≠ contentHash (serializeDetail D2) :=
      fun he => hD (serializeDetail_injective (contentHash_injective he))
    exact ⟨hhash, fun he => hhash (versionFileName_injective he),
      sharedWrite_any_mono _ _ _ (sharedWrite_any_self st D1),
      sharedWrite_any_self _ D2⟩
  · exact sharedWrite_noop _ _ (sharedWrite_any_self st D1)
  · intro h
    rw [sharedWrite_noop _ _ (sharedWrite_any_self st D1),
      sharedWrite_from_empty st D1 h]

/-- Witness for C1: two concrete distinct details produce distinct version
file names, and the double write from the empty store leaves exactly one
entry. -/
theorem claim_C1_witness :
    versionFileName (contentHash (serializeDetail ⟨"a", "t", "c"⟩))
      ≠ versionFileName (contentHash (serializeDetail ⟨"b", "t", "c"⟩))
    ∧ (sharedWrite (sharedWrite ⟨none, []⟩ ⟨"a", "t", "c"⟩) ⟨"a", "t", "c"⟩).versions
      = [(contentHash (serializeDetail ⟨"a", "t", "c"⟩), serializeDetail ⟨"a", "t", "c"⟩)] :=
  ⟨((claim_C1 ⟨none, []⟩ ⟨"a", "t", "c"⟩ ⟨"b", "t", "c"⟩).1 (by decide)).2.1,
   (claim_C1 ⟨none, []⟩ ⟨"a", "t", "c"⟩ ⟨"b", "t", "c"⟩).2.2 (by rfl)⟩

/-- Claim C6: creating a web fails with OverwriteError exactly when
`root/name` already exists as a file or directory; otherwise it creates
exactly one directory (the new web's) and returns the new Web, after which
a second create fails with OverwriteError and `get_web` returns the web,
whose directory exists; and `get_web` answers `some` precisely when
`root/name` is a directory. -/
theorem claim_C6 (fs : Fs) (webs : Webs) (name : String)
    (hroot : fs.isDir webs.path = true) :
    (fs.pathExists (webs.path ++ [osOf name]) = true →
      Webs.create_web fs webs name = (.error .OverwriteError, fs))
    ∧ (fs.pathExists (webs.path ++ [osOf name]) = false →
      Webs.create_web fs webs name
          = (.ok ⟨name, webs.path ++ [osOf name]⟩,
             ⟨(webs.path ++ [osOf name]) :: fs.dirs, fs.files⟩)
      ∧ Webs.create_web ⟨(webs.path ++ [osOf name]) :: fs.dirs, fs.files⟩ webs name
          = (.error .OverwriteError, ⟨(webs.path ++ [osOf name]) :: fs.dirs, fs.files⟩)
      ∧ Webs.get_web ⟨(webs.path ++ [osOf name]) :: fs.dirs, fs.files⟩ webs name
          = some ⟨name, webs.path ++ [osOf name]⟩
      ∧ Fs.isDir ⟨(webs.path ++ [osOf name]) :: fs.dirs, fs.files⟩
          (webs.path ++ [osOf name]) = true)
    ∧ (∀ w : Web, Webs.get_web fs webs name = some w ↔
      fs.isDir (webs.path ++ [osOf name]) = true ∧ w = ⟨name, webs.path ++ [osOf name]⟩) := by
  refine ⟨?_, ?_, ?_⟩
  · intro hex
    simp [Webs.create_web, hex]
  · intro hex
    have hone : Fs.isDir ⟨(webs.path ++ [osOf name]) :: fs.dirs, fs.files⟩
        (webs.path ++ [osOf name]) = true := by
      simp [Fs.isDir]
    have hstep : fs.createDir (webs.path ++ [osOf name])
        = .ok ⟨(webs.path ++ [osOf name]) :: fs.dirs, fs.files⟩ := by
      unfold Fs.createDir
      rw [if_neg (by simp [hex]), if_pos (by simpa [List.dropLast_concat] using hroot)]
    refine ⟨by simp [Webs.create_web, hex, hstep], ?_, ?_, hone⟩
    · have hex2 : Fs.pathExists ⟨(webs.path ++ [osOf name]) :: fs.dirs, fs.files⟩
          (webs.path ++ [osOf name]) = true := by
        simp [Fs.pathExists, hone]
      simp [Webs.create_web, hex2]
    · simp [Webs.get_web, hone]
  · intro w
    constructor
    · intro hw
      simp only [Webs.get_web] at hw
      by_cases hd : fs.isDir (webs.path ++ [osOf name]) = true
      · rw [if_pos hd] at hw
        exact ⟨hd, (Option.some_injective _ hw).symm⟩
      · rw [if_neg hd] at hw
        exact absurd hw (by simp)
    · rintro ⟨hd, rfl⟩
      simp [Webs.get_web, hd]

/-- Witness for C6: creating web `Home` in a store holding only the root
directory succeeds, and the second create fails with OverwriteError. -/
theorem claim_C6_witness :
    Webs.create_web ⟨[[osOf "r"]], []⟩ ⟨[osOf "r"]⟩ "Home"
        = (.ok ⟨"Home", [osOf "r", osOf "Home"]⟩, ⟨[[osOf "r", osOf "Home"], [osOf "r"]], []⟩)
    ∧ Webs.create_web ⟨[[osOf "r", osOf "Home"], [osOf "r"]], []⟩ ⟨[osOf "r"]⟩ "Home"
        = (.error .OverwriteError, ⟨[[osOf "r", osOf "Home"], [osOf "r"]], []⟩)
    ∧ Webs.get_web ⟨[[osOf "r", osOf "Home"], [osOf "r"]], []⟩ ⟨[osOf "r"]⟩ "Home"
        = some ⟨"Home", [osOf "r", osOf "Home"]⟩ := by
  have h := (claim_C6 ⟨[[osOf "r"]], []⟩ ⟨[osOf "r"]⟩ "Home" (by decide)).2.1 (by decide)
  exact ⟨h.1, h.2.1, h.2.2.1⟩

/-- Counterexample state for C9: web `w` holds one subdirectory `sub` and
one regular file `f.txt`. -/
def fsC9 : Fs :=
  { dirs := [[osOf "r"], [osOf "r", osOf "w"], [osOf "r", osOf "w", osOf "sub"]]
    files := [([osOf "r", osOf "w", osOf "f.txt"], [1])] }

def webC9 : Web := ⟨"w", [osOf "r", osOf "w"]⟩

/-- Counterexample to C9 as stated: `get_page_stubs` lists the regular file
`f.txt` and not the subdirectory `sub`, while the claim demands one stub per
subdirectory and no stub for non-directory entries. -/
theorem claim_C9_counterexample :
    Web.get_page_stubs fsC9 webC9 = .ok [⟨"f.txt"⟩]
    ∧ ((⟨"sub"⟩ : PageStub) ∉ [(⟨"f.txt"⟩ : PageStub)]) :=
  ⟨by rfl, by decide⟩

/-- Claim C9 (amended): listing a web's pages succeeds exactly on the
directory's entries that are immediate regular-file children (with
UTF-8-representable paths), one stub per such file, named by its file name;
entries that are not regular files — subdirectories in particular — are not
listed.  This matches the src/src/web.rs iteration, where a page is a flat
file; the spec's words (immediate subdirectories) describe the later
directory-per-page layout. -/
theorem claim_C9_amended (fs : Fs) (web : Web) (stubs : List PageStub)
    (h : Web.get_page_stubs fs web = .ok stubs) :
    ∀ s : String,
      (⟨s⟩ : PageStub) ∈ stubs ↔
        ∃ q ∈ fs.children web.path, fs.isFile q = true ∧ q.utf8Ok = true
          ∧ (OsStr.toStr (q.fileName.getD [])).getD "" = s := by
  intro s
  unfold Web.get_page_stubs Fs.readDir at h
  by_cases hd : fs.isDir web.path = true
  · rw [if_pos hd] at h
    have hs : ((fs.children web.path).filter
        (fun p => fs.isFile p && p.utf8Ok)).map
        (fun p => (⟨(OsStr.toStr (p.fileName.getD [])).getD ""⟩ : PageStub)) = stubs := by
      simpa using h
    rw [← hs]
    simp only [List.mem_map, List.mem_filter, Bool.and_eq_true]
    constructor
    · rintro ⟨q, ⟨hq, hf, hu⟩, he⟩
      exact ⟨q, hq, hf, hu, by simpa [PageStub.mk.injEq] using he⟩
    · rintro ⟨q, hq, hf, hu, he⟩
      exact ⟨q, ⟨hq, hf, hu⟩, by simp [PageStub.mk.injEq, he]⟩
  · rw [if_neg hd] at h
    exact absurd h (by simp)

/-- Witness for C9 (amended theorem applied at the counterexample state). -/
theorem claim_C9_witness :
    ((⟨"f.txt"⟩ : PageStub) ∈ [(⟨"f.txt"⟩ : PageStub)]) ↔
      ∃ q ∈ fsC9.children webC9.path, fsC9.isFile q = true ∧ q.utf8Ok = true
        ∧ (OsStr.toStr (q.fileName.getD [])).getD "" = "f.txt" :=
  claim_C9_amended fsC9 webC9 [⟨"f.txt"⟩] (by rfl) "f.txt"

theorem fileName_concat (p : FsPath) (c : OsStr) (h : ¬ c = osOf "..") :
    FsPath.fileName (p ++ [c]) = some c := by
  unfold FsPath.fileName
  rw [List.getLast?_concat]
  simp [h]

/-- Reading back an attachment written at the head of the file table. -/
theorem attachment_found (ds : List FsPath) (rest : List (FsPath × List Nat))
    (page : Page) (B : List Nat) :
    Page.get_attachment
        ⟨ds, (page.path ++ [osOf ATTACHMENTS_DIRECTORY, osOf "photo.png"], B) :: rest⟩
        page "photo.png"
      = .ok ⟨page.path ++ [osOf ATTACHMENTS_DIRECTORY, osOf "photo.png"]⟩
    ∧ Attachment.data
        ⟨ds, (page.path ++ [osOf ATTACHMENTS_DIRECTORY, osOf "photo.png"], B) :: rest⟩
        ⟨page.path ++ [osOf ATTACHMENTS_DIRECTORY, osOf "photo.png"]⟩ = .ok B
    ∧ Attachment.mime_type
        (⟨page.path ++ [osOf ATTACHMENTS_DIRECTORY, osOf "photo.png"]⟩ : Attachment)
      = Mime.imagePng := by
  have hread : Fs.readFile
      ⟨ds, (page.path ++ [osOf ATTACHMENTS_DIRECTORY, osOf "photo.png"], B) :: rest⟩
      (page.path ++ [osOf ATTACHMENTS_DIRECTORY, osOf "photo.png"]) = some B := by
    unfold Fs.readFile
    rw [List.find?_cons_of_pos _ (by simp)]
    rfl
  refine ⟨?_, ?_, ?_⟩
  · unfold Page.get_attachment Attachment.openAt
    rw [if_pos ?_]
    simp [Fs.pathExists, Fs.isFile]
  · unfold Attachment.data
    rw [hread]
  · have h2 : page.path ++ [osOf ATTACHMENTS_DIRECTORY, osOf "photo.png"]
        = (page.path ++ [osOf ATTACHMENTS_DIRECTORY]) ++ [osOf "photo.png"] := by
      simp
    have hfn : FsPath.fileName (page.path ++ [osOf ATTACHMENTS_DIRECTORY, osOf "photo.png"])
        = some (osOf "photo.png") := by
      rw [h2]
      exact fileName_concat _ _ (by decide)
    have hext : FsPath.extension (page.path ++ [osOf ATTACHMENTS_DIRECTORY, osOf "photo.png"])
        = some (osOf "png") := by
      unfold FsPath.extension
      rw [hfn]
      decide
    unfold Attachment.mime_type
    rw [hext]
    decide

/-- Claim C7: saving an attachment named photo.png whose payload is the
base64 encoding of a byte sequence B, then opening it and reading the data,
returns exactly B, and its mime type is image/png.  Hypotheses: the page
directory exists, `attachments` is not shadowed by a regular file, and no
directory occupies the target file path. -/
theorem claim_C7 (fs : Fs) (page : Page) (B : List Nat)
    (hB : ∀ b ∈ B, b < 256)
    (hdir : fs.isDir page.path = true)
    (hnf : fs.isFile (page.path ++ [osOf ATTACHMENTS_DIRECTORY]) = false)
    (hnd : fs.isDir (page.path ++ [osOf ATTACHMENTS_DIRECTORY, osOf "photo.png"]) = false) :
    ∃ fs2 : Fs,
      Page.save_attachment fs page ⟨"photo.png", b64EncodeStr B⟩ = (.ok (), fs2)
      ∧ ∃ att : Attachment,
          Page.get_attachment fs2 page "photo.png" = .ok att
          ∧ Attachment.data fs2 att = .ok B
          ∧ att.mime_type = Mime.imagePng := by
  have hdec : b64DecodeStr (b64EncodeStr B) = some B := b64DecodeStr_encodeStr B hB
  have hassoc : (page.path ++ [osOf ATTACHMENTS_DIRECTORY]) ++ [osOf "photo.png"]
      = page.path ++ [osOf ATTACHMENTS_DIRECTORY, osOf "photo.png"] := by simp
  by_cases hex : fs.pathExists (page.path ++ [osOf ATTACHMENTS_DIRECTORY]) = true
  · have hdirA : fs.isDir (page.path ++ [osOf ATTACHMENTS_DIRECTORY]) = true := by
      have h0 := hex
      simp [Fs.pathExists, hnf] at h0
      exact h0
    have hw : fs.writeFile (page.path ++ [osOf ATTACHMENTS_DIRECTORY, osOf "photo.png"]) B
        = .ok ⟨fs.dirs,
            (page.path ++ [osOf ATTACHMENTS_DIRECTORY, osOf "photo.png"], B)
              :: fs.files.filter
                (fun q => q.1 ≠ page.path ++ [osOf ATTACHMENTS_DIRECTORY, osOf "photo.png"])⟩ := by
      unfold Fs.writeFile
      rw [if_neg (by simp [hnd]), if_pos (by rw [← hassoc, List.dropLast_concat]; exact hdirA)]
    refine ⟨⟨fs.dirs,
        (page.path ++ [osOf ATTACHMENTS_DIRECTORY, osOf "photo.png"], B)
          :: fs.files.filter
            (fun q => q.1 ≠ page.path ++ [osOf ATTACHMENTS_DIRECTORY, osOf "photo.png"])⟩,
      ?_, ?_⟩
    · simp only [Page.save_attachment, AttachmentData.data, hdec]
      simp [hex, hw]
    · have hfound := attachment_found fs.dirs
        (fs.files.filter
          (fun q => q.1 ≠ page.path ++ [osOf ATTACHMENTS_DIRECTORY, osOf "photo.png"]))
        page B
      exact ⟨_, hfound.1, hfound.2.1, hfound.2.2⟩
  · have hcd : fs.createDir (page.path ++ [osOf ATTACHMENTS_DIRECTORY])
        = .ok ⟨(page.path ++ [osOf ATTACHMENTS_DIRECTORY]) :: fs.dirs, fs.files⟩ := by
      unfold Fs.createDir
      rw [if_neg (by simp [hex]), if_pos (by rw [List.dropLast_concat]; exact hdir)]
    have hnotdir : Fs.isDir ⟨(page.path ++ [osOf ATTACHMENTS_DIRECTORY]) :: fs.dirs, fs.files⟩
        (page.path ++ [osOf ATTACHMENTS_DIRECTORY, osOf "photo.png"]) = false := by
      simp only [Fs.isDir, List.contains_cons]
      rw [Bool.or_eq_false_iff]
      refine ⟨?_, ?_⟩
      · rw [beq_eq_false_iff_ne]
        intro he
        have hlen := congrArg List.length he
        simp [List.length_append] at hlen
      · simpa [Fs.isDir] using hnd
    have hw : Fs.writeFile ⟨(page.path ++ [osOf ATTACHMENTS_DIRECTORY]) :: fs.dirs, fs.files⟩
        (page.path ++ [osOf ATTACHMENTS_DIRECTORY, osOf "photo.png"]) B
        = .ok ⟨(page.path ++ [osOf ATTACHMENTS_DIRECTORY]) :: fs.dirs,
            (page.path ++ [osOf ATTACHMENTS_DIRECTORY, osOf "photo.png"], B)
              :: fs.files.filter
                (fun q => q.1 ≠ page.path ++ [osOf ATTACHMENTS_DIRECTORY, osOf "photo.png"])⟩ := by
      unfold Fs.writeFile
      rw [if_neg (by simp [hnotdir]),
        if_pos (by rw [← hassoc, List.dropLast_concat]; simp [Fs.isDir])]
    refine ⟨⟨(page.path ++ [osOf ATTACHMENTS_DIRECTORY]) :: fs.dirs,
        (page.path ++ [osOf ATTACHMENTS_DIRECTORY, osOf "photo.png"], B)
          :: fs.files.filter
            (fun q => q.1 ≠ page.path ++ [osOf ATTACHMENTS_DIRECTORY, osOf "photo.png"])⟩,
      ?_, ?_⟩
    · simp only [Page.save_attachment, AttachmentData.data, hdec]
      simp [hex, hcd, hw]
    · have hfound := attachment_found ((page.path ++ [osOf ATTACHMENTS_DIRECTORY]) :: fs.dirs)
        (fs.files.filter
          (fun q => q.1 ≠ page.path ++ [osOf ATTACHMENTS_DIRECTORY, osOf "photo.png"]))
        page B
      exact ⟨_, hfound.1, hfound.2.1, hfound.2.2⟩

/-- Witness for C7 at a concrete store and byte sequence. -/
theorem claim_C7_witness :
    ∃ fs2 : Fs,
      Page.save_attachment fsW pageW ⟨"photo.png", b64EncodeStr [0, 255, 7]⟩ = (.ok (), fs2)
      ∧ ∃ att : Attachment,
          Page.get_attachment fs2 pageW "photo.png" = .ok att
          ∧ Attachment.data fs2 att = .ok [0, 255, 7]
          ∧ att.mime_type = Mime.imagePng :=
  claim_C7 fsW pageW [0, 255, 7] (by decide) (by decide) (by decide) (by decide)

end BioWiki
